import Mathlib

set_option maxRecDepth 100000
set_option linter.unusedVariables false

/-!
Shallow embedding of the linked-MRCPSP sources (src/src/utils.py and the
formulation builders in src/src/pulse.py, src/src/onoff.py, src/src/step.py,
src/src/onoff_pulse.py, src/src/continuous.py, plus the VP derivation in
src/src/test.py).  Durations, capacities and resource requirements are Python
ints, embedded as Int; activity, mode and time indices are Nat.  Python list
indexing is embedded with List.getD (the claims only ever supply in-range
indices, where getD agrees with Python indexing).
-/

/-- Python min over a nonempty sequence, as used for the generator
min(p[j][m] for m in range(M)); 0 is a junk value for the empty case
(Python raises a ValueError there, which no claim exercises). -/
def pyMinList : List Int → Int
  | [] => 0
  | x :: xs => xs.foldl min x

/-- Python max over a nonempty sequence; 0 is a junk value for the empty case. -/
def pyMaxList : List Int → Int
  | [] => 0
  | x :: xs => xs.foldl max x

/-- min(p[j][m] for m in range(M)) from utils.py line 25. -/
def minModes (pj : List Int) (M : Nat) : Int :=
  pyMinList ((List.range M).map fun m => pj.getD m 0)

/-- max(p[j][m] for m in range(M)) from utils.py line 52. -/
def maxModes (pj : List Int) (M : Nat) : Int :=
  pyMaxList ((List.range M).map fun m => pj.getD m 0)

/-- Embedding of get_earliest_start_time (src/src/utils.py lines 4-27).
The list starts as [0]*n with index 0 set to 0 again (lines 19-21); the outer
loop runs i over range(1, n), the inner loop scans every edge (j, k) in E and,
when k == i, updates est[i] to max(est[j] + min-mode-duration of j, est[i]).
Arguments T, R, L, r, VP are accepted and ignored exactly as in the source. -/
def get_earliest_start_time (n T M : Nat) (R : List Int) (E : List (Nat × Nat))
    (p : List (List Int)) (L : List (Nat × Nat)) (r : List (List (List Int)))
    (VP : List (Nat × Nat)) : List Int :=
  (List.range' 1 (n - 1)).foldl
    (fun est i =>
      E.foldl
        (fun acc e =>
          if e.2 = i then
            acc.set i (max (acc.getD e.1 0 + minModes (p.getD e.1 []) M) (acc.getD i 0))
          else acc)
        est)
    ((List.replicate n (0 : Int)).set 0 0)

/-- Embedding of get_latest_start_time (src/src/utils.py lines 31-56).
The list starts as [-1]*n with index n-1 set to 0 (lines 46-48); the loop runs
i over range(n-1, 0, -1), scans every edge (k, j) in E and, when k == i,
updates lst[i] to max(lst[j] + max-mode-duration of j, lst[i]); finally the
list is reversed (line 55) and returned. -/
def get_latest_start_time (n T M : Nat) (R : List Int) (E : List (Nat × Nat))
    (p : List (List Int)) (L : List (Nat × Nat)) (r : List (List (List Int)))
    (VP : List (Nat × Nat)) : List Int :=
  ((((List.range' 1 (n - 1)).reverse).foldl
      (fun lst i =>
        E.foldl
          (fun acc e =>
            if e.1 = i then
              acc.set i (max (acc.getD e.2 0 + maxModes (p.getD e.2 []) M) (acc.getD i 0))
            else acc)
          lst)
      ((List.replicate n (-1 : Int)).set (n - 1) 0)).reverse)

/-- C5: on the 3-activity chain instance (n = 3, one mode, E = [(0,1),(1,2)],
p = [[0],[3],[0]], one resource of capacity 1 required by activity 1),
get_earliest_start_time returns exactly [0, 0, 3]. -/
theorem earliest_start_chain_instance :
    get_earliest_start_time 3 10 1 [1] [(0, 1), (1, 2)] [[0], [3], [0]] []
      [[[0]], [[1]], [[0]]] [] = [0, 0, 3] := by
  decide

/-- C2: on the 2-activity chain n = 2, E = [(0,1)], p = [[1],[1]] (acyclic
precedence, non-negative durations) the code returns est = [0, 1] and
lst = [0, -1], so est[1] ≤ lst[1] fails: the backward pass of
get_latest_start_time does not compute latest start times. -/
theorem latest_start_below_earliest_start_at_chain :
    get_earliest_start_time 2 10 1 [] [(0, 1)] [[1], [1]] [] [] [] = [0, 1] ∧
    get_latest_start_time 2 10 1 [] [(0, 1)] [[1], [1]] [] [] [] = [0, -1] ∧
    ¬ ((get_earliest_start_time 2 10 1 [] [(0, 1)] [[1], [1]] [] [] []).getD 1 0 ≤
        (get_latest_start_time 2 10 1 [] [(0, 1)] [[1], [1]] [] [] []).getD 1 0) := by
  decide

/-- C7: on the cyclic edge set E = [(0,1),(1,0)] both bound estimators return
normally (est = [0,1], lst = [0,-1]); no CyclicPrecedenceError exists anywhere
in the code, so a cyclic instance is not detected before model construction. -/
theorem cyclic_precedence_returns_without_error :
    get_earliest_start_time 2 10 1 [] [(0, 1), (1, 0)] [[1], [1]] [] [] [] = [0, 1] ∧
    get_latest_start_time 2 10 1 [] [(0, 1), (1, 0)] [[1], [1]] [] [] [] = [0, -1] := by
  decide

/-- list(set(i for job in p for i in job)) (pulse.py line 20; the identical
line opens every builder): the distinct duration values.  Python set order is
unspecified; dedup fixes one order, and the only use below is a gcd fold,
whose value is order-insensitive. -/
def unique_processing_times (p : List (List Int)) : List Int :=
  p.flatten.dedup

/-- math.gcd(*xs): the gcd of all arguments, a non-negative int. -/
def pyGcdList (l : List Int) : Int :=
  l.foldl (fun a b => ((Int.gcd a b : Nat) : Int)) 0

/-- divisor = gcd(*(unique durations with T appended)) (pulse.py lines 20-22,
identical in every builder). -/
def time_divisor (p : List (List Int)) (T : Nat) : Int :=
  pyGcdList (unique_processing_times p ++ [(T : Int)])

/-- The inner normalization loop acting on one row of p:
for j in range(len(p[i])): p[i][j] = p[i][j] // divisor
(Python // is floor division, Int.fdiv). -/
def normalizeRow (row : List Int) (d : Int) : List Int :=
  (List.range row.length).foldl (fun acc j => acc.set j ((acc.getD j 0).fdiv d)) row

/-- The in-place normalization loop of every builder (pulse.py lines 23-25):
for i in range(len(p)): for j in range(len(p[i])): p[i][j] = p[i][j] // divisor.
Returns the final state of the mutated table p. -/
def normalizeLoop (p : List (List Int)) (d : Int) : List (List Int) :=
  (List.range p.length).foldl (fun acc i => acc.set i (normalizeRow (acc.getD i []) d)) p

/-- T = T // divisor (pulse.py line 26). -/
def normalized_T (T : Nat) (d : Int) : Nat :=
  ((T : Int).fdiv d).toNat

/-- The caller-visible state of (p, T) after the normalization prologue of any
builder has run: the list object bound to p is mutated in place, so the caller
sees the rescaled table, while T is only rebound locally inside the builder
(Python ints are immutable), so the caller's T is unchanged. -/
def callerStateAfterBuild (p : List (List Int)) (T : Nat) :
    List (List Int) × Nat :=
  (normalizeLoop p (time_divisor p T), T)

/-- The index-by-index set loop over range k rewrites the first k entries of a
list by f and leaves the rest alone. -/
theorem foldl_set_range_eq_map {α : Type} (dflt : α) (f : α → α) (k : Nat) :
    ∀ l : List α, k ≤ l.length →
      (List.range k).foldl (fun acc j => acc.set j (f (acc.getD j dflt))) l =
        (l.take k).map f ++ l.drop k := by
  induction k with
  | zero => intro l h; simp
  | succ k ih =>
    intro l h
    have hk : k < l.length := Nat.lt_of_succ_le h
    have hlen : ((l.take k).map f).length = k := by
      simp [Nat.min_eq_left (Nat.le_of_lt hk)]
    rw [List.range_succ, List.foldl_append, ih l (Nat.le_of_succ_le h)]
    simp only [List.foldl_cons, List.foldl_nil]
    rw [List.drop_eq_getElem_cons hk]
    have hgetD : (((l.take k).map f) ++ l[k] :: l.drop (k + 1)).getD k dflt = l[k] := by
      rw [List.getD_append_right _ _ _ _ hlen.le, hlen, Nat.sub_self]
      rfl
    rw [hgetD, List.set_append_right _ _ hlen.le, hlen, Nat.sub_self,
      List.set_cons_zero]
    have htake : (l.map f).take (k + 1) = (l.map f).take k ++ [f l[k]] := by
      have hsome : (l.map f)[k]? = some (f l[k]) := by
        simp [List.getElem?_eq_getElem, hk]
      rw [List.take_succ, hsome]
      rfl
    simp [htake]

/-- The inner loop maps floor division by d over the row. -/
theorem normalizeRow_eq_map (row : List Int) (d : Int) :
    normalizeRow row d = row.map (fun x => x.fdiv d) := by
  unfold normalizeRow
  rw [foldl_set_range_eq_map (0 : Int) (fun x => x.fdiv d) row.length row (Nat.le_refl _)]
  simp

/-- The two nested loops map floor division by d over every entry of p. -/
theorem normalizeLoop_eq_map (p : List (List Int)) (d : Int) :
    normalizeLoop p d = p.map (fun row => row.map (fun x => x.fdiv d)) := by
  unfold normalizeLoop
  rw [foldl_set_range_eq_map ([] : List Int) (fun row => normalizeRow row d)
    p.length p (Nat.le_refl _)]
  simp [normalizeRow_eq_map]

/-- C4 counterexample: on p = [[2],[4]], T = 8 the divisor is 2 and the
caller's duration table is left holding [[1],[2]], not its original values:
the normalization is not side-effect free on p. -/
theorem builder_mutates_duration_table :
    callerStateAfterBuild [[2], [4]] 8 ≠ ([[2], [4]], 8) := by
  decide

/-- C4 amended: after any builder returns, the caller's horizon T is unchanged
(the rebinding T = T // divisor is local to the builder), but the caller's
duration table has been mutated in place: entry (i, j) now holds the floor of
the old value divided by the gcd divisor. -/
theorem builder_normalization_effect (p : List (List Int)) (T : Nat)
    (i j : Nat) (hi : i < p.length) (hj : j < (p.getD i []).length) :
    (callerStateAfterBuild p T).2 = T ∧
    ((callerStateAfterBuild p T).1.getD i []).getD j 0 =
      ((p.getD i []).getD j 0).fdiv (time_divisor p T) := by
  refine ⟨rfl, ?_⟩
  unfold callerStateAfterBuild
  rw [normalizeLoop_eq_map]
  have hi' : i < (p.map (fun row => row.map (fun x => x.fdiv (time_divisor p T)))).length := by
    simpa using hi
  rw [List.getD_eq_getElem _ _ hi', List.getElem_map]
  rw [List.getD_eq_getElem _ _ hi]
  have hj' : j < (p[i].map (fun x => x.fdiv (time_divisor p T))).length := by
    rw [List.getD_eq_getElem _ _ hi] at hj; simpa using hj
  rw [List.getD_eq_getElem _ _ hj', List.getElem_map]
  rw [List.getD_eq_getElem]

/-- Witness for the C4 amended theorem at p = [[2],[4]], T = 8, i = 1, j = 0. -/
theorem builder_normalization_effect_witness :
    1 < ([[2], [4]] : List (List Int)).length ∧
    0 < (([[2], [4]] : List (List Int)).getD 1 []).length ∧
    ((callerStateAfterBuild [[2], [4]] 8).2 = 8 ∧
      ((callerStateAfterBuild [[2], [4]] 8).1.getD 1 []).getD 0 0 =
        ((([[2], [4]] : List (List Int)).getD 1 []).getD 0 0).fdiv
          (time_divisor [[2], [4]] 8)) :=
  ⟨by decide, by decide,
    builder_normalization_effect [[2], [4]] 8 1 0 (by decide) (by decide)⟩

/-- The gcd fold divides its accumulator. -/
theorem pyGcdFold_dvd_init :
    ∀ (l : List Int) (g : Int),
      l.foldl (fun a b => ((Int.gcd a b : Nat) : Int)) g ∣ g := by
  intro l
  induction l with
  | nil => intro g; exact dvd_refl g
  | cons x xs ih =>
    intro g
    exact dvd_trans (ih ((Int.gcd g x : Nat) : Int)) (Int.gcd_dvd_left)

/-- The gcd fold divides every element of the list. -/
theorem pyGcdFold_dvd_mem :
    ∀ (l : List Int) (g a : Int), a ∈ l →
      l.foldl (fun a b => ((Int.gcd a b : Nat) : Int)) g ∣ a := by
  intro l
  induction l with
  | nil => intro g a ha; cases ha
  | cons x xs ih =>
    intro g a ha
    rcases List.mem_cons.mp ha with h | h
    · subst h
      exact dvd_trans (pyGcdFold_dvd_init xs ((Int.gcd g a : Nat) : Int)) Int.gcd_dvd_right
    · exact ih _ a h

/-- The gcd fold starting from a non-negative accumulator stays non-negative. -/
theorem pyGcdFold_nonneg :
    ∀ (l : List Int) (g : Int), 0 ≤ g →
      0 ≤ l.foldl (fun a b => ((Int.gcd a b : Nat) : Int)) g := by
  intro l
  induction l with
  | nil => intro g hg; exact hg
  | cons x xs ih => intro g hg; exact ih _ (Int.natCast_nonneg _)

/-- An in-range entry of the table is an element of its flattening. -/
theorem table_entry_mem_flatten (p : List (List Int)) (i j : Nat)
    (hi : i < p.length) (hj : j < (p.getD i []).length) :
    (p.getD i []).getD j 0 ∈ p.flatten := by
  rw [List.getD_eq_getElem _ _ hi] at hj ⊢
  rw [List.getD_eq_getElem _ _ hj]
  exact List.mem_flatten.mpr ⟨p[i], List.getElem_mem hi, List.getElem_mem hj⟩

/-- C10: whenever T > 0 or some duration is positive, the divisor
gcd(distinct durations, T) is positive and divides the horizon T and every
duration p[i][m]; the floor divisions performed by the builders are exact and
multiplying the rescaled values back by the divisor reconstructs the original
values, so the inexact-division failure case is unreachable. -/
theorem time_divisor_exactness (p : List (List Int)) (T : Nat)
    (hpos : 0 < T ∨ ∃ x ∈ p.flatten, 0 < x) :
    0 < time_divisor p T ∧
    time_divisor p T ∣ (T : Int) ∧
    ((T : Int).fdiv (time_divisor p T)) * time_divisor p T = (T : Int) ∧
    ∀ i j, i < p.length → j < (p.getD i []).length →
      (time_divisor p T ∣ (p.getD i []).getD j 0 ∧
        (((p.getD i []).getD j 0).fdiv (time_divisor p T)) * time_divisor p T =
          (p.getD i []).getD j 0) := by
  have hdvdT : time_divisor p T ∣ (T : Int) := by
    unfold time_divisor pyGcdList
    exact pyGcdFold_dvd_mem _ 0 _ (List.mem_append_right _ (List.mem_singleton.mpr rfl))
  have hdvdp : ∀ i j, i < p.length → j < (p.getD i []).length →
      time_divisor p T ∣ (p.getD i []).getD j 0 := by
    intro i j hi hj
    unfold time_divisor pyGcdList
    refine pyGcdFold_dvd_mem _ 0 _ (List.mem_append_left _ ?_)
    exact List.mem_dedup.mpr (table_entry_mem_flatten p i j hi hj)
  have hne : time_divisor p T ≠ 0 := by
    rcases hpos with hT | ⟨x, hx, hxpos⟩
    · intro h0
      rw [h0] at hdvdT
      have : (T : Int) = 0 := zero_dvd_iff.mp hdvdT
      omega
    · intro h0
      have hdvdx : time_divisor p T ∣ x := by
        unfold time_divisor pyGcdList
        exact pyGcdFold_dvd_mem _ 0 _ (List.mem_append_left _ (List.mem_dedup.mpr hx))
      rw [h0] at hdvdx
      have : x = 0 := zero_dvd_iff.mp hdvdx
      omega
  have hnn : 0 ≤ time_divisor p T := by
    unfold time_divisor pyGcdList
    exact pyGcdFold_nonneg _ 0 (le_refl 0)
  have hposd : 0 < time_divisor p T := lt_of_le_of_ne hnn (Ne.symm hne)
  have hrec : ∀ a : Int, time_divisor p T ∣ a →
      (a.fdiv (time_divisor p T)) * time_divisor p T = a := by
    intro a ⟨c, hc⟩
    subst hc
    rw [Int.mul_fdiv_cancel_left _ hne]
    ring
  exact ⟨hposd, hdvdT, hrec _ hdvdT, fun i j hi hj =>
    ⟨hdvdp i j hi hj, hrec _ (hdvdp i j hi hj)⟩⟩

/-- Witness for C10 at p = [[2],[4]], T = 8 (divisor 2), entry (1, 0). -/
theorem time_divisor_exactness_witness :
    (0 < 8 ∨ ∃ x ∈ ([[2], [4]] : List (List Int)).flatten, 0 < x) ∧
    (0 < time_divisor [[2], [4]] 8 ∧
      time_divisor [[2], [4]] 8 ∣ (8 : Int) ∧
      ((8 : Int).fdiv (time_divisor [[2], [4]] 8)) * time_divisor [[2], [4]] 8 = (8 : Int) ∧
      ∀ i j, i < ([[2], [4]] : List (List Int)).length →
        j < (([[2], [4]] : List (List Int)).getD i []).length →
        (time_divisor [[2], [4]] 8 ∣ (([[2], [4]] : List (List Int)).getD i []).getD j 0 ∧
          ((([[2], [4]] : List (List Int)).getD i []).getD j 0).fdiv (time_divisor [[2], [4]] 8) *
              time_divisor [[2], [4]] 8 =
            (([[2], [4]] : List (List Int)).getD i []).getD j 0)) :=
  ⟨Or.inl (by decide), time_divisor_exactness [[2], [4]] 8 (Or.inl (by decide))⟩

/-- getD of a set list at the set position, in range. -/
theorem getD_set_self {α : Type} (l : List α) (i : Nat) (a d : α) (h : i < l.length) :
    (l.set i a).getD i d = a := by
  rw [List.getD_eq_getElem?_getD, List.getElem?_set_self h]
  rfl

/-- getD of a set list away from the set position. -/
theorem getD_set_ne {α : Type} (l : List α) (i j : Nat) (a d : α) (h : i ≠ j) :
    (l.set i a).getD j d = l.getD j d := by
  rw [List.getD_eq_getElem?_getD, List.getElem?_set_ne h, ← List.getD_eq_getElem?_getD]

/-- One iteration of the inner edge loop of get_earliest_start_time
(utils.py lines 23-26) for a fixed target activity i. -/
def estStep (p : List (List Int)) (M i : Nat) (acc : List Int) (e : Nat × Nat) :
    List Int :=
  if e.2 = i then
    acc.set i (max (acc.getD e.1 0 + minModes (p.getD e.1 []) M) (acc.getD i 0))
  else acc

/-- The full inner edge loop of get_earliest_start_time for a fixed i. -/
def estInner (E : List (Nat × Nat)) (p : List (List Int)) (M i : Nat)
    (est : List Int) : List Int :=
  E.foldl (estStep p M i) est

theorem get_earliest_start_time_eq_fold (n T M : Nat) (R : List Int)
    (E : List (Nat × Nat)) (p : List (List Int)) (L : List (Nat × Nat))
    (r : List (List (List Int))) (VP : List (Nat × Nat)) :
    get_earliest_start_time n T M R E p L r VP =
      (List.range' 1 (n - 1)).foldl (fun est i => estInner E p M i est)
        ((List.replicate n (0 : Int)).set 0 0) := rfl

theorem estStep_length (p : List (List Int)) (M i : Nat) (acc : List Int)
    (e : Nat × Nat) : (estStep p M i acc e).length = acc.length := by
  unfold estStep
  split <;> simp

theorem estStep_getD_ne (p : List (List Int)) (M i : Nat) (acc : List Int)
    (e : Nat × Nat) (j : Nat) (hj : j ≠ i) :
    (estStep p M i acc e).getD j 0 = acc.getD j 0 := by
  unfold estStep
  split
  · exact getD_set_ne _ _ _ _ _ (fun h => hj h.symm)
  · rfl

theorem estStep_getD_le (p : List (List Int)) (M i : Nat) (acc : List Int)
    (e : Nat × Nat) : acc.getD i 0 ≤ (estStep p M i acc e).getD i 0 := by
  unfold estStep
  split
  · by_cases hi : i < acc.length
    · rw [getD_set_self _ _ _ _ hi]
      exact le_max_right _ _
    · rw [List.set_eq_of_length_le (Nat.le_of_not_lt hi)]
  · exact le_refl _

theorem estStep_edge (p : List (List Int)) (M i : Nat) (acc : List Int)
    (e : Nat × Nat) (h2 : e.2 = i) (hi : i < acc.length) :
    acc.getD e.1 0 + minModes (p.getD e.1 []) M ≤ (estStep p M i acc e).getD i 0 := by
  unfold estStep
  rw [if_pos h2, getD_set_self _ _ _ _ hi]
  exact le_max_left _ _

theorem estInner_length (p : List (List Int)) (M i : Nat) :
    ∀ (E : List (Nat × Nat)) (est : List Int),
      (estInner E p M i est).length = est.length := by
  intro E
  induction E with
  | nil => intro est; rfl
  | cons e E ih =>
    intro est
    show (estInner E p M i (estStep p M i est e)).length = est.length
    rw [ih, estStep_length]

theorem estInner_getD_ne (p : List (List Int)) (M i : Nat) :
    ∀ (E : List (Nat × Nat)) (est : List Int) (j : Nat), j ≠ i →
      (estInner E p M i est).getD j 0 = est.getD j 0 := by
  intro E
  induction E with
  | nil => intro est j hj; rfl
  | cons e E ih =>
    intro est j hj
    show (estInner E p M i (estStep p M i est e)).getD j 0 = est.getD j 0
    rw [ih _ _ hj, estStep_getD_ne _ _ _ _ _ _ hj]

theorem estInner_getD_le (p : List (List Int)) (M i : Nat) :
    ∀ (E : List (Nat × Nat)) (est : List Int),
      est.getD i 0 ≤ (estInner E p M i est).getD i 0 := by
  intro E
  induction E with
  | nil => intro est; exact le_refl _
  | cons e E ih =>
    intro est
    exact le_trans (estStep_getD_le p M i est e) (ih (estStep p M i est e))

theorem estInner_edge (p : List (List Int)) (M i : Nat) :
    ∀ (E : List (Nat × Nat)) (est : List Int) (e : Nat × Nat), e ∈ E → e.2 = i →
      e.1 ≠ i → i < est.length →
      est.getD e.1 0 + minModes (p.getD e.1 []) M ≤ (estInner E p M i est).getD i 0 := by
  intro E
  induction E with
  | nil => intro est e he; cases he
  | cons f E ih =>
    intro est e he h2 h1 hi
    rcases List.mem_cons.mp he with h | h
    · subst h
      exact le_trans (estStep_edge p M i est e h2 hi)
        (estInner_getD_le p M i E (estStep p M i est e))
    · have hstep1 : (estStep p M i est f).getD e.1 0 = est.getD e.1 0 :=
        estStep_getD_ne p M i est f e.1 h1
      have hlen : i < (estStep p M i est f).length := by
        rw [estStep_length]; exact hi
      have := ih (estStep p M i est f) e h h2 h1 hlen
      rw [hstep1] at this
      exact this

/-- Every entry of the initial earliest-start list is 0. -/
theorem initEst_getD (n j : Nat) :
    ((List.replicate n (0 : Int)).set 0 0).getD j 0 = 0 := by
  rw [List.set_replicate_self, List.getD_eq_getElem?_getD, List.getElem?_replicate]
  split <;> rfl

/-- Invariant of the outer forward sweep of get_earliest_start_time on a
topologically numbered edge set: after processing indices 1..k the list has
length n, position 0 still holds 0, and every edge whose head is at most k
already satisfies the precedence bound. -/
theorem estOuter_inv (n M : Nat) (E : List (Nat × Nat)) (p : List (List Int))
    (hE : ∀ e ∈ E, e.1 < e.2 ∧ e.2 < n) :
    ∀ k, k ≤ n - 1 →
      ((List.range' 1 k).foldl (fun est i => estInner E p M i est)
          ((List.replicate n (0 : Int)).set 0 0)).length = n ∧
      ((List.range' 1 k).foldl (fun est i => estInner E p M i est)
          ((List.replicate n (0 : Int)).set 0 0)).getD 0 0 = 0 ∧
      ∀ e ∈ E, e.2 ≤ k →
        ((List.range' 1 k).foldl (fun est i => estInner E p M i est)
            ((List.replicate n (0 : Int)).set 0 0)).getD e.1 0 +
          minModes (p.getD e.1 []) M ≤
        ((List.range' 1 k).foldl (fun est i => estInner E p M i est)
            ((List.replicate n (0 : Int)).set 0 0)).getD e.2 0 := by
  intro k
  induction k with
  | zero =>
    intro hk
    refine ⟨by simp, initEst_getD n 0, ?_⟩
    intro e he h2
    have := (hE e he).1
    omega
  | succ k ih =>
    intro hk
    have hk' : k ≤ n - 1 := le_trans (Nat.le_succ k) hk
    obtain ⟨hlen, h0, hedges⟩ := ih hk'
    have hidx : 1 + k < n := by omega
    rw [List.range'_1_concat, List.foldl_append]
    simp only [List.foldl_cons, List.foldl_nil]
    refine ⟨by rw [estInner_length]; exact hlen, ?_, ?_⟩
    · rw [estInner_getD_ne _ _ _ _ _ _ (by omega)]
      exact h0
    · intro e he h2
      obtain ⟨h12, h2n⟩ := hE e he
      by_cases hcase : e.2 ≤ k
      · rw [estInner_getD_ne _ _ _ _ _ _ (by omega),
          estInner_getD_ne _ _ _ _ _ _ (by omega)]
        exact hedges e he hcase
      · have h21 : e.2 = 1 + k := by omega
        rw [h21, estInner_getD_ne _ _ _ _ _ _ (by omega)]
        exact estInner_edge p M (1 + k) E _ e he h21 (by omega) (by rw [hlen]; omega)

/-- C3: on a topologically numbered instance (every edge (i,j) of E has
i < j < n) with non-negative durations, get_earliest_start_time returns a list
est with est[0] = 0 and est[i] + min over modes of p[i] ≤ est[j] for every
precedence edge (i,j). -/
theorem earliest_start_respects_precedence (n T M : Nat) (R : List Int)
    (E : List (Nat × Nat)) (p : List (List Int)) (L : List (Nat × Nat))
    (r : List (List (List Int))) (VP : List (Nat × Nat))
    (hn : 1 ≤ n)
    (hE : ∀ e ∈ E, e.1 < e.2 ∧ e.2 < n)
    (hp : ∀ row ∈ p, ∀ x ∈ row, (0 : Int) ≤ x) :
    (get_earliest_start_time n T M R E p L r VP).getD 0 0 = 0 ∧
    ∀ e ∈ E,
      (get_earliest_start_time n T M R E p L r VP).getD e.1 0 +
          minModes (p.getD e.1 []) M ≤
        (get_earliest_start_time n T M R E p L r VP).getD e.2 0 := by
  obtain ⟨hlen, h0, hedges⟩ := estOuter_inv n M E p hE (n - 1) (le_refl _)
  rw [get_earliest_start_time_eq_fold]
  exact ⟨h0, fun e he => hedges e he (by have := (hE e he).2; omega)⟩

/-- Witness for C3 at the 3-activity chain instance. -/
theorem earliest_start_respects_precedence_witness :
    (1 ≤ 3 ∧
      (∀ e ∈ [((0 : Nat), (1 : Nat)), (1, 2)], e.1 < e.2 ∧ e.2 < 3) ∧
      (∀ row ∈ [[(0 : Int)], [3], [0]], ∀ x ∈ row, (0 : Int) ≤ x)) ∧
    ((get_earliest_start_time 3 10 1 [1] [(0, 1), (1, 2)] [[0], [3], [0]] []
        [[[0]], [[1]], [[0]]] []).getD 0 0 = 0 ∧
      ∀ e ∈ [((0 : Nat), (1 : Nat)), (1, 2)],
        (get_earliest_start_time 3 10 1 [1] [(0, 1), (1, 2)] [[0], [3], [0]] []
            [[[0]], [[1]], [[0]]] []).getD e.1 0 +
            minModes (([[0], [3], [0]] : List (List Int)).getD e.1 []) 1 ≤
          (get_earliest_start_time 3 10 1 [1] [(0, 1), (1, 2)] [[0], [3], [0]] []
              [[[0]], [[1]], [[0]]] []).getD e.2 0) :=
  ⟨⟨by decide, by decide, by decide⟩,
    earliest_start_respects_precedence 3 10 1 [1] [(0, 1), (1, 2)] [[0], [3], [0]] []
      [[[0]], [[1]], [[0]]] [] (by decide) (by decide) (by decide)⟩

/-- The derivation of the non-ordered pair set VP (src/src/test.py line 18 and
src/src/continuous.py line 82):
VP = [[i,j] for i in range(n) for j in range(n)
            if [i,j] not in E and [j,i] not in E and i != j]. -/
def derive_VP (n : Nat) (E : List (Nat × Nat)) : List (Nat × Nat) :=
  (List.range n).flatMap fun i =>
    ((List.range n).filter fun j =>
      decide ((i, j) ∉ E ∧ (j, i) ∉ E ∧ i ≠ j)).map fun j => (i, j)

/-- Membership in the derived VP list. -/
theorem mem_derive_VP (n : Nat) (E : List (Nat × Nat)) (i j : Nat) :
    (i, j) ∈ derive_VP n E ↔ i < n ∧ j < n ∧ (i, j) ∉ E ∧ (j, i) ∉ E ∧ i ≠ j := by
  unfold derive_VP
  simp only [List.mem_flatMap, List.mem_map, List.mem_filter, List.mem_range,
    decide_eq_true_eq, ne_eq, Prod.mk.injEq]
  constructor
  · rintro ⟨a, ha, b, ⟨hb, hE1, hE2, hab⟩, hai, hbj⟩
    subst hai; subst hbj
    exact ⟨ha, hb, hE1, hE2, hab⟩
  · rintro ⟨ha, hb, h1, h2, hij⟩
    exact ⟨i, ha, j, ⟨hb, h1, h2, hij⟩, rfl, rfl⟩

/-- C9: for activities i ≠ j of an instance whose edge set never contains both
directions of a pair (as holds for any DAG), exactly one of the following is
true: (i,j) is a precedence edge, (j,i) is a precedence edge, or (i,j) is in
the derived non-ordered pair set VP.  In particular no pair is both
precedence-related and non-ordered. -/
theorem vp_partition_exactly_once (n : Nat) (E : List (Nat × Nat)) (i j : Nat)
    (hi : i < n) (hj : j < n) (hij : i ≠ j)
    (hanti : ¬((i, j) ∈ E ∧ (j, i) ∈ E)) :
    ((i, j) ∈ E ∧ (j, i) ∉ E ∧ (i, j) ∉ derive_VP n E) ∨
    ((j, i) ∈ E ∧ (i, j) ∉ E ∧ (i, j) ∉ derive_VP n E) ∨
    ((i, j) ∈ derive_VP n E ∧ (i, j) ∉ E ∧ (j, i) ∉ E) := by
  by_cases h1 : (i, j) ∈ E
  · refine Or.inl ⟨h1, fun h2 => hanti ⟨h1, h2⟩, fun hvp => ?_⟩
    exact ((mem_derive_VP n E i j).mp hvp).2.2.1 h1
  · by_cases h2 : (j, i) ∈ E
    · refine Or.inr (Or.inl ⟨h2, h1, fun hvp => ?_⟩)
      exact ((mem_derive_VP n E i j).mp hvp).2.2.2.1 h2
    · exact Or.inr (Or.inr ⟨(mem_derive_VP n E i j).mpr ⟨hi, hj, h1, h2, hij⟩, h1, h2⟩)

/-- Witness for C9 at n = 3, E = [(0,1),(1,2)], pair (0, 2). -/
theorem vp_partition_exactly_once_witness :
    (0 < 3 ∧ 2 < 3 ∧ (0 : Nat) ≠ 2 ∧
      ¬(((0 : Nat), (2 : Nat)) ∈ [((0 : Nat), (1 : Nat)), (1, 2)] ∧
        ((2 : Nat), (0 : Nat)) ∈ [((0 : Nat), (1 : Nat)), (1, 2)])) ∧
    ((((0 : Nat), (2 : Nat)) ∈ [((0 : Nat), (1 : Nat)), (1, 2)] ∧
        ((2 : Nat), (0 : Nat)) ∉ [((0 : Nat), (1 : Nat)), (1, 2)] ∧
        ((0 : Nat), (2 : Nat)) ∉ derive_VP 3 [(0, 1), (1, 2)]) ∨
      (((2 : Nat), (0 : Nat)) ∈ [((0 : Nat), (1 : Nat)), (1, 2)] ∧
        ((0 : Nat), (2 : Nat)) ∉ [((0 : Nat), (1 : Nat)), (1, 2)] ∧
        ((0 : Nat), (2 : Nat)) ∉ derive_VP 3 [(0, 1), (1, 2)]) ∨
      (((0 : Nat), (2 : Nat)) ∈ derive_VP 3 [(0, 1), (1, 2)] ∧
        ((0 : Nat), (2 : Nat)) ∉ [((0 : Nat), (1 : Nat)), (1, 2)] ∧
        ((2 : Nat), (0 : Nat)) ∉ [((0 : Nat), (1 : Nat)), (1, 2)])) :=
  ⟨⟨by decide, by decide, by decide, by decide⟩,
    vp_partition_exactly_once 3 [(0, 1), (1, 2)] 0 2 (by decide) (by decide)
      (by decide) (by decide)⟩

/-- The shared prologue of every formulation builder (e.g. pulse.py lines
19-30): normalize durations and horizon by the gcd divisor, then compute the
earliest start times of the normalized instance. -/
def builderEst (n T M : Nat) (R : List Int) (E : List (Nat × Nat))
    (p : List (List Int)) (L : List (Nat × Nat)) (r : List (List (List Int)))
    (VP : List (Nat × Nat)) : List Int :=
  get_earliest_start_time n (normalized_T T (time_divisor p T)) M R E
    (normalizeLoop p (time_divisor p T)) L r VP

/-- The index triples (i, m, t) of the zero_time_slots constraint family
x[i,m,t] == 0 of pulse_model (pulse.py line 64): i in range(n), m in range(M),
t in range(earliest_starting_times[i]). -/
def pulseZeroTimeSlots (n T M : Nat) (R : List Int) (E : List (Nat × Nat))
    (p : List (List Int)) (L : List (Nat × Nat)) (r : List (List (List Int)))
    (VP : List (Nat × Nat)) : List (Nat × Nat × Nat) :=
  (List.range n).flatMap fun i =>
    (List.range M).flatMap fun m =>
      (List.range ((builderEst n T M R E p L r VP).getD i 0).toNat).map fun t =>
        (i, m, t)

/-- The zero_time_slots family of pulse_model_disaggregated (pulse.py line 124). -/
def pulseDisaggregatedZeroTimeSlots (n T M : Nat) (R : List Int)
    (E : List (Nat × Nat)) (p : List (List Int)) (L : List (Nat × Nat))
    (r : List (List (List Int))) (VP : List (Nat × Nat)) : List (Nat × Nat × Nat) :=
  (List.range n).flatMap fun i =>
    (List.range M).flatMap fun m =>
      (List.range ((builderEst n T M R E p L r VP).getD i 0).toNat).map fun t =>
        (i, m, t)

/-- The zero_time_slots family y[i,m,t] == 0 of onoff_model (onoff.py line 64). -/
def onoffZeroTimeSlots (n T M : Nat) (R : List Int) (E : List (Nat × Nat))
    (p : List (List Int)) (L : List (Nat × Nat)) (r : List (List (List Int)))
    (VP : List (Nat × Nat)) : List (Nat × Nat × Nat) :=
  (List.range n).flatMap fun i =>
    (List.range M).flatMap fun m =>
      (List.range ((builderEst n T M R E p L r VP).getD i 0).toNat).map fun t =>
        (i, m, t)

/-- The earliest_start_times family z[i,m,t] == 0 of step_model (step.py line 69). -/
def stepEarliestStartTimes (n T M : Nat) (R : List Int) (E : List (Nat × Nat))
    (p : List (List Int)) (L : List (Nat × Nat)) (r : List (List (List Int)))
    (VP : List (Nat × Nat)) : List (Nat × Nat × Nat) :=
  (List.range n).flatMap fun i =>
    (List.range M).flatMap fun m =>
      (List.range ((builderEst n T M R E p L r VP).getD i 0).toNat).map fun t =>
        (i, m, t)

/-- The earliest_start_times family of step_model_disaggregated (step.py line 138). -/
def stepDisaggregatedEarliestStartTimes (n T M : Nat) (R : List Int)
    (E : List (Nat × Nat)) (p : List (List Int)) (L : List (Nat × Nat))
    (r : List (List (List Int))) (VP : List (Nat × Nat)) : List (Nat × Nat × Nat) :=
  (List.range n).flatMap fun i =>
    (List.range M).flatMap fun m =>
      (List.range ((builderEst n T M R E p L r VP).getD i 0).toNat).map fun t =>
        (i, m, t)

/-- The zero_time_slots family x[i,m,t] == 0 of onoff_pulse_model
(onoff_pulse.py line 69). -/
def onoffPulseZeroTimeSlots (n T M : Nat) (R : List Int) (E : List (Nat × Nat))
    (p : List (List Int)) (L : List (Nat × Nat)) (r : List (List (List Int)))
    (VP : List (Nat × Nat)) : List (Nat × Nat × Nat) :=
  (List.range n).flatMap fun i =>
    (List.range M).flatMap fun m =>
      (List.range ((builderEst n T M R E p L r VP).getD i 0).toNat).map fun t =>
        (i, m, t)

/-- The zero_time_slots family of onoff_pulse_model_disaggregated
(onoff_pulse.py line 134). -/
def onoffPulseDisaggregatedZeroTimeSlots (n T M : Nat) (R : List Int)
    (E : List (Nat × Nat)) (p : List (List Int)) (L : List (Nat × Nat))
    (r : List (List (List Int))) (VP : List (Nat × Nat)) : List (Nat × Nat × Nat) :=
  (List.range n).flatMap fun i =>
    (List.range M).flatMap fun m =>
      (List.range ((builderEst n T M R E p L r VP).getD i 0).toNat).map fun t =>
        (i, m, t)

/-- The earliest_starting_times constraint family S[i] >= est[i] of
continuous_model (continuous.py line 40), as the list of (activity,
lower bound) pairs for i in range(n). -/
def continuousEstBounds (n T M : Nat) (R : List Int) (E : List (Nat × Nat))
    (p : List (List Int)) (L : List (Nat × Nat)) (r : List (List (List Int)))
    (VP : List (Nat × Nat)) : List (Nat × Int) :=
  (List.range n).map fun i => (i, (builderEst n T M R E p L r VP).getD i 0)

/-- Membership in a triple comprehension over range n, range M and
range est[i]. -/
theorem mem_zeroTriples (n M : Nat) (est : List Int) (i m t : Nat) :
    ((i, m, t) ∈ (List.range n).flatMap fun i =>
      (List.range M).flatMap fun m =>
        (List.range ((est.getD i 0).toNat)).map fun t => (i, m, t)) ↔
    i < n ∧ m < M ∧ (t : Int) < est.getD i 0 := by
  simp only [List.mem_flatMap, List.mem_map, List.mem_range, Prod.mk.injEq]
  constructor
  · rintro ⟨a, ha, b, hb, c, hc, rfl, rfl, rfl⟩
    exact ⟨ha, hb, Int.lt_toNat.mp hc⟩
  · rintro ⟨ha, hb, ht⟩
    exact ⟨i, ha, m, hb, t, Int.lt_toNat.mpr ht, rfl, rfl, rfl⟩

/-- C6: each discrete-time builder emits the constraint fixing its (i, m, t)
indicator to 0 exactly for the activities i < n, modes m < M and instants t
strictly below the computed earliest start time of i (on the normalized
instance), and the continuous-time builder emits the lower-bound constraint
S[i] >= est[i] for every activity i < n. -/
theorem zero_time_slot_constraints (n T M : Nat) (R : List Int)
    (E : List (Nat × Nat)) (p : List (List Int)) (L : List (Nat × Nat))
    (r : List (List (List Int))) (VP : List (Nat × Nat)) (i m t : Nat) :
    (((i, m, t) ∈ pulseZeroTimeSlots n T M R E p L r VP) ↔
      (i < n ∧ m < M ∧ (t : Int) < (builderEst n T M R E p L r VP).getD i 0)) ∧
    (((i, m, t) ∈ pulseDisaggregatedZeroTimeSlots n T M R E p L r VP) ↔
      (i < n ∧ m < M ∧ (t : Int) < (builderEst n T M R E p L r VP).getD i 0)) ∧
    (((i, m, t) ∈ onoffZeroTimeSlots n T M R E p L r VP) ↔
      (i < n ∧ m < M ∧ (t : Int) < (builderEst n T M R E p L r VP).getD i 0)) ∧
    (((i, m, t) ∈ stepEarliestStartTimes n T M R E p L r VP) ↔
      (i < n ∧ m < M ∧ (t : Int) < (builderEst n T M R E p L r VP).getD i 0)) ∧
    (((i, m, t) ∈ stepDisaggregatedEarliestStartTimes n T M R E p L r VP) ↔
      (i < n ∧ m < M ∧ (t : Int) < (builderEst n T M R E p L r VP).getD i 0)) ∧
    (((i, m, t) ∈ onoffPulseZeroTimeSlots n T M R E p L r VP) ↔
      (i < n ∧ m < M ∧ (t : Int) < (builderEst n T M R E p L r VP).getD i 0)) ∧
    (((i, m, t) ∈ onoffPulseDisaggregatedZeroTimeSlots n T M R E p L r VP) ↔
      (i < n ∧ m < M ∧ (t : Int) < (builderEst n T M R E p L r VP).getD i 0)) ∧
    (i < n → (i, (builderEst n T M R E p L r VP).getD i 0) ∈
      continuousEstBounds n T M R E p L r VP) := by
  refine ⟨mem_zeroTriples n M _ i m t, mem_zeroTriples n M _ i m t,
    mem_zeroTriples n M _ i m t, mem_zeroTriples n M _ i m t,
    mem_zeroTriples n M _ i m t, mem_zeroTriples n M _ i m t,
    mem_zeroTriples n M _ i m t, ?_⟩
  intro hi
  unfold continuousEstBounds
  exact List.mem_map.mpr ⟨i, List.mem_range.mpr hi, rfl⟩

/-- Witness for C6 at the 3-activity chain instance, triple (2, 0, 1). -/
theorem zero_time_slot_constraints_witness :
    ((2, 0, 1) ∈ pulseZeroTimeSlots 3 10 1 [1] [(0, 1), (1, 2)] [[0], [3], [0]] []
        [[[0]], [[1]], [[0]]] [] ∧
      (2, 0, 1) ∈ onoffZeroTimeSlots 3 10 1 [1] [(0, 1), (1, 2)] [[0], [3], [0]] []
        [[[0]], [[1]], [[0]]] [] ∧
      (2, 0, 1) ∈ stepEarliestStartTimes 3 10 1 [1] [(0, 1), (1, 2)] [[0], [3], [0]] []
        [[[0]], [[1]], [[0]]] [] ∧
      (2, (builderEst 3 10 1 [1] [(0, 1), (1, 2)] [[0], [3], [0]] []
          [[[0]], [[1]], [[0]]] []).getD 2 0) ∈
        continuousEstBounds 3 10 1 [1] [(0, 1), (1, 2)] [[0], [3], [0]] []
          [[[0]], [[1]], [[0]]] []) := by
  have h := zero_time_slot_constraints 3 10 1 [1] [(0, 1), (1, 2)] [[0], [3], [0]] []
    [[[0]], [[1]], [[0]]] [] 2 0 1
  exact ⟨h.1.mpr (by decide), h.2.2.1.mpr (by decide), h.2.2.2.1.mpr (by decide),
    h.2.2.2.2.2.2.2 (by decide)⟩

/-- p[i][m] as the builders read the duration table. -/
def pEntry (p : List (List Int)) (i m : Nat) : Int := (p.getD i []).getD m 0

/-- r[i][m][k] as the builders read the resource-requirement table. -/
def rEntry (r : List (List (List Int))) (i m k : Nat) : Int :=
  ((r.getD i []).getD m []).getD k 0

/-- Feasibility of a 0/1 assignment to the pulse variables x[i,m,t] for the
model emitted by pulse_model (pulse.py lines 8-66), over the normalized
durations and horizon the builder computes first: binariness of the declared
variables, schedule-exactly-once (line 46), aggregated precedence (lines
49-53), resource availability (lines 56-57), linked modes (lines 60-61) and
zero time slots before the earliest start times (line 64). -/
def pulseFeasible (n T M : Nat) (R : List Int) (E : List (Nat × Nat))
    (p : List (List Int)) (L : List (Nat × Nat)) (r : List (List (List Int)))
    (VP : List (Nat × Nat)) (x : Nat → Nat → Nat → Int) : Prop :=
  (∀ i < n, ∀ m < M, ∀ t < normalized_T T (time_divisor p T),
    x i m t = 0 ∨ x i m t = 1) ∧
  (∀ i < n,
    ∑ m ∈ Finset.range M, ∑ t ∈ Finset.range (normalized_T T (time_divisor p T)),
      x i m t = 1) ∧
  (∀ e ∈ E,
    ∑ m ∈ Finset.range M, ∑ t ∈ Finset.range (normalized_T T (time_divisor p T)),
      ((t : Int) + pEntry (normalizeLoop p (time_divisor p T)) e.1 m) * x e.1 m t ≤
    ∑ m ∈ Finset.range M, ∑ t ∈ Finset.range (normalized_T T (time_divisor p T)),
      (t : Int) * x e.2 m t) ∧
  (∀ t < normalized_T T (time_divisor p T), ∀ k < R.length,
    ∑ m ∈ Finset.range M, ∑ i ∈ Finset.range n,
      ∑ tau ∈ Finset.Ico
        (((t : Int) - pEntry (normalizeLoop p (time_divisor p T)) i m + 1) ⊔ 0).toNat
        (t + 1),
        rEntry r i m k * x i m tau ≤ R.getD k 0) ∧
  (∀ e ∈ L, ∀ m < M,
    ∑ t ∈ Finset.range (normalized_T T (time_divisor p T)), x e.1 m t ≤
    ∑ t ∈ Finset.range (normalized_T T (time_divisor p T)), x e.2 m t) ∧
  (∀ i < n, ∀ m < M, ∀ t < ((builderEst n T M R E p L r VP).getD i 0).toNat,
    x i m t = 0)

/-- The objective of pulse_model (pulse.py line 42): the weighted start
instant of the sink activity n-1, over the normalized horizon. -/
def pulseObjective (n T M : Nat) (p : List (List Int)) (x : Nat → Nat → Nat → Int) : Int :=
  ∑ t ∈ Finset.range (normalized_T T (time_divisor p T)), ∑ m ∈ Finset.range M,
    (t : Int) * x (n - 1) m t

/-- Feasibility of a 0/1 assignment to the on-off variables y[i,m,t] for the
model emitted by onoff_model (onoff.py lines 8-66): binariness, the schedule
constraint dividing by p[i][m] when positive (line 46), separate exactly-once
scheduling of the two dummies (lines 48-49), the contiguity constraint
(line 52), precedence (line 55), resource availability (line 58), linked modes
(line 61) and zero time slots (line 64).  Divided coefficients are rationals,
as in the emitted linear program. -/
def onoffFeasible (n T M : Nat) (R : List Int) (E : List (Nat × Nat))
    (p : List (List Int)) (L : List (Nat × Nat)) (r : List (List (List Int)))
    (VP : List (Nat × Nat)) (y : Nat → Nat → Nat → ℚ) : Prop :=
  (∀ i < n, ∀ m < M, ∀ t < normalized_T T (time_divisor p T),
    y i m t = 0 ∨ y i m t = 1) ∧
  (∀ i, 1 ≤ i → i < n - 1 →
    ∑ m ∈ Finset.range M, ∑ t ∈ Finset.range (normalized_T T (time_divisor p T)),
      (if 0 < pEntry (normalizeLoop p (time_divisor p T)) i m then
        y i m t / ((pEntry (normalizeLoop p (time_divisor p T)) i m : Int) : ℚ)
      else y i m t) = 1) ∧
  (∑ m ∈ Finset.range M, ∑ t ∈ Finset.range (normalized_T T (time_divisor p T)),
    y 0 m t = 1) ∧
  (∑ m ∈ Finset.range M, ∑ t ∈ Finset.range (normalized_T T (time_divisor p T)),
    y (n - 1) m t = 1) ∧
  (∀ i < n, ∀ m < M, ∀ t < normalized_T T (time_divisor p T) - 1,
    ((pEntry (normalizeLoop p (time_divisor p T)) i m : Int) : ℚ) *
        (y i m t - y i m (t + 1)) -
      ∑ tau ∈ Finset.Ico
        (((t : Int) - pEntry (normalizeLoop p (time_divisor p T)) i m + 1) ⊔ 0).toNat t,
        y i m tau ≤ 1) ∧
  (∀ e ∈ E, ∀ t < normalized_T T (time_divisor p T),
    ∑ m ∈ Finset.range M,
      ∑ tau ∈ Finset.range
        (((t : Int) + 1 - min (pEntry (normalizeLoop p (time_divisor p T)) e.1 m) 1).toNat),
        y e.1 m tau / ((max (pEntry (normalizeLoop p (time_divisor p T)) e.1 m) 1 : Int) : ℚ) ≥
    ∑ m ∈ Finset.range M, y e.2 m t) ∧
  (∀ t < normalized_T T (time_divisor p T), ∀ k < R.length,
    ∑ i ∈ Finset.range n, ∑ m ∈ Finset.range M,
      ((rEntry r i m k : Int) : ℚ) * y i m t ≤ ((R.getD k 0 : Int) : ℚ)) ∧
  (∀ e ∈ L, ∀ m < M,
    ∑ t ∈ Finset.range (normalized_T T (time_divisor p T)),
      y e.1 m t / ((max (pEntry (normalizeLoop p (time_divisor p T)) e.1 m) 1 : Int) : ℚ) =
    ∑ t ∈ Finset.range (normalized_T T (time_divisor p T)),
      y e.2 m t / ((max (pEntry (normalizeLoop p (time_divisor p T)) e.2 m) 1 : Int) : ℚ)) ∧
  (∀ i < n, ∀ m < M, ∀ t < ((builderEst n T M R E p L r VP).getD i 0).toNat,
    y i m t = 0)

/-- The objective of onoff_model (onoff.py line 42): weighted occupancy of the
sink activity over t in range(1, T). -/
def onoffObjective (n T M : Nat) (p : List (List Int)) (y : Nat → Nat → Nat → ℚ) : ℚ :=
  ∑ t ∈ Finset.Ico 1 (normalized_T T (time_divisor p T)), ∑ m ∈ Finset.range M,
    (t : ℚ) * y (n - 1) m t

/-- An optimal pulse assignment for the 4-activity counterexample instance:
activities 0, 1, 2 start at instant 0 and the sink starts at instant 1. -/
def pulseOptX : Nat → Nat → Nat → Int := fun i _ t =>
  if (i = 0 ∧ t = 0) ∨ (i = 1 ∧ t = 0) ∨ (i = 2 ∧ t = 0) ∨ (i = 3 ∧ t = 1) then 1 else 0

/-- An optimal on-off assignment for the 4-activity counterexample instance:
activity 0 occupies slot 0, the zero-duration activity 1 occupies slot 0,
activity 2 occupies slot 1 and the sink occupies slot 2. -/
def onoffOptY : Nat → Nat → Nat → ℚ := fun i _ t =>
  if (i = 0 ∧ t = 0) ∨ (i = 1 ∧ t = 0) ∨ (i = 2 ∧ t = 1) ∨ (i = 3 ∧ t = 2) then 1 else 0

theorem cex_normalized_T_eval :
    normalized_T 3 (time_divisor [[0], [0], [1], [0]] 3) = 3 := by decide

theorem cex_normalizeLoop_eval :
    normalizeLoop [[0], [0], [1], [0]] (time_divisor [[0], [0], [1], [0]] 3) =
      [[0], [0], [1], [0]] := by decide

theorem cex_builderEst_eval :
    builderEst 4 3 1 [1] [(0, 1), (1, 2), (2, 3)] [[0], [0], [1], [0]] []
      [[[0]], [[1]], [[1]], [[0]]] [] = [0, 0, 0, 1] := by decide

theorem pulseOptX_feasible :
    pulseFeasible 4 3 1 [1] [(0, 1), (1, 2), (2, 3)] [[0], [0], [1], [0]] []
      [[[0]], [[1]], [[1]], [[0]]] [] pulseOptX := by
  unfold pulseFeasible
  decide

theorem pulse_lower_bound_cex :
    ∀ x, pulseFeasible 4 3 1 [1] [(0, 1), (1, 2), (2, 3)] [[0], [0], [1], [0]] []
      [[[0]], [[1]], [[1]], [[0]]] [] x →
      1 ≤ pulseObjective 4 3 1 [[0], [0], [1], [0]] x := by
  intro x hx
  unfold pulseFeasible at hx
  rw [cex_normalized_T_eval, cex_builderEst_eval] at hx
  obtain ⟨hbin, hsched, hprec, hres, hlink, hzero⟩ := hx
  have h300 : x 3 0 0 = 0 := hzero 3 (by omega) 0 (by omega) 0 (by decide)
  have hs3 := hsched 3 (by omega)
  have hb1 := hbin 3 (by omega) 0 (by omega) 1 (by omega)
  have hb2 := hbin 3 (by omega) 0 (by omega) 2 (by omega)
  simp only [Finset.sum_range_succ, Finset.sum_range_zero] at hs3
  unfold pulseObjective
  rw [cex_normalized_T_eval]
  simp only [Finset.sum_range_succ, Finset.sum_range_zero]
  norm_num at hs3 ⊢
  rcases hb1 with h1 | h1 <;> rcases hb2 with h2 | h2 <;> omega

theorem onoffOptY_feasible :
    onoffFeasible 4 3 1 [1] [(0, 1), (1, 2), (2, 3)] [[0], [0], [1], [0]] []
      [[[0]], [[1]], [[1]], [[0]]] [] onoffOptY := by
  unfold onoffFeasible
  rw [cex_normalized_T_eval, cex_normalizeLoop_eval, cex_builderEst_eval]
  refine ⟨?_, ?_, ?_, ?_, ?_, ?_, ?_, ?_, ?_⟩
  · intro i hi m hm t ht
    interval_cases i <;> interval_cases m <;> interval_cases t <;>
      norm_num [onoffOptY]
  · intro i h1 h2
    interval_cases i <;>
      norm_num [Finset.sum_range_succ, onoffOptY, pEntry]
  · norm_num [Finset.sum_range_succ, onoffOptY]
  · norm_num [Finset.sum_range_succ, onoffOptY]
  · intro i hi m hm t ht
    interval_cases i <;> interval_cases m <;> interval_cases t <;>
      norm_num [Finset.sum_Ico_eq_sum_range, Finset.sum_range_succ, onoffOptY, pEntry]
  · intro e he t ht
    simp only [List.mem_cons, List.not_mem_nil, or_false] at he
    rcases he with rfl | rfl | rfl <;> interval_cases t <;>
      norm_num [Finset.sum_range_succ, onoffOptY, pEntry]
  · intro t ht k hk
    have hk1 : k < 1 := by simpa using hk
    interval_cases t <;> interval_cases k <;>
      norm_num [Finset.sum_range_succ, onoffOptY, rEntry]
  · intro e he
    cases he
  · intro i hi m hm t ht
    interval_cases i
    · rw [(by decide : ((([0, 0, 0, 1] : List Int).getD 0 0).toNat) = 0)] at ht; omega
    · rw [(by decide : ((([0, 0, 0, 1] : List Int).getD 1 0).toNat) = 0)] at ht; omega
    · rw [(by decide : ((([0, 0, 0, 1] : List Int).getD 2 0).toNat) = 0)] at ht; omega
    · rw [(by decide : ((([0, 0, 0, 1] : List Int).getD 3 0).toNat) = 1)] at ht
      interval_cases t
      interval_cases m <;> norm_num [onoffOptY]

theorem onoffOptY_objective :
    onoffObjective 4 3 1 [[0], [0], [1], [0]] onoffOptY = 2 := by
  unfold onoffObjective
  rw [cex_normalized_T_eval]
  norm_num [Finset.sum_Ico_eq_sum_range, Finset.sum_range_succ, onoffOptY]

theorem onoff_lower_bound_cex :
    ∀ y, onoffFeasible 4 3 1 [1] [(0, 1), (1, 2), (2, 3)] [[0], [0], [1], [0]] []
      [[[0]], [[1]], [[1]], [[0]]] [] y →
      2 ≤ onoffObjective 4 3 1 [[0], [0], [1], [0]] y := by
  intro y hy
  unfold onoffFeasible at hy
  rw [cex_normalized_T_eval, cex_normalizeLoop_eval, cex_builderEst_eval] at hy
  obtain ⟨hbin, hsched, hfirst, hlast, hsame, hprec, hres, hlink, hzero⟩ := hy
  have h300 : y 3 0 0 = 0 := hzero 3 (by omega) 0 (by omega) 0 (by decide)
  have hp23 := hprec (2, 3) (by simp) 1 (by omega)
  have hp12 := hprec (1, 2) (by simp) 0 (by omega)
  have hr0 := hres 0 (by omega) 0 (by simp)
  have hb31 := hbin 3 (by omega) 0 (by omega) 1 (by omega)
  have hb32 := hbin 3 (by omega) 0 (by omega) 2 (by omega)
  norm_num [Finset.sum_range_succ, pEntry, rEntry] at hp23 hp12 hr0 hlast
  unfold onoffObjective
  rw [cex_normalized_T_eval]
  norm_num [Finset.sum_Ico_eq_sum_range, Finset.sum_range_succ]
  rcases hb31 with h31 | h31 <;> rcases hb32 with h32 | h32 <;>
    linarith [hp23, hp12, hr0, hlast, h300]

/-- C1: an instance on which two of the encodings disagree at provable
optimality.  On the 4-activity instance n = 4, T = 3, one mode,
E = [(0,1),(1,2),(2,3)], p = [[0],[0],[1],[0]] (the non-dummy activity 1 has
duration zero), one resource of capacity 1 required by activities 1 and 2, the
pulse model has optimal objective 1 while the on-off model has optimal
objective 2, and the divisor is the same for both, so the reported values
1 * divisor and 2 * divisor differ: the encodings do not all report the same
optimal objective value. -/
theorem pulse_onoff_optimal_values_differ :
    (pulseFeasible 4 3 1 [1] [(0, 1), (1, 2), (2, 3)] [[0], [0], [1], [0]] []
        [[[0]], [[1]], [[1]], [[0]]] [] pulseOptX ∧
      pulseObjective 4 3 1 [[0], [0], [1], [0]] pulseOptX = 1) ∧
    (∀ x, pulseFeasible 4 3 1 [1] [(0, 1), (1, 2), (2, 3)] [[0], [0], [1], [0]] []
        [[[0]], [[1]], [[1]], [[0]]] [] x →
      1 ≤ pulseObjective 4 3 1 [[0], [0], [1], [0]] x) ∧
    (onoffFeasible 4 3 1 [1] [(0, 1), (1, 2), (2, 3)] [[0], [0], [1], [0]] []
        [[[0]], [[1]], [[1]], [[0]]] [] onoffOptY ∧
      onoffObjective 4 3 1 [[0], [0], [1], [0]] onoffOptY = 2) ∧
    (∀ y, onoffFeasible 4 3 1 [1] [(0, 1), (1, 2), (2, 3)] [[0], [0], [1], [0]] []
        [[[0]], [[1]], [[1]], [[0]]] [] y →
      2 ≤ onoffObjective 4 3 1 [[0], [0], [1], [0]] y) ∧
    (1 : Int) * time_divisor [[0], [0], [1], [0]] 3 ≠
      2 * time_divisor [[0], [0], [1], [0]] 3 :=
  ⟨⟨pulseOptX_feasible, by unfold pulseObjective pulseOptX; decide⟩,
    pulse_lower_bound_cex,
    ⟨onoffOptY_feasible, onoffOptY_objective⟩,
    onoff_lower_bound_cex,
    by decide⟩

/-- C8: building the on-off model for an instance whose non-dummy activity 1
has duration zero in its only mode raises no error anywhere (the source
defines no UnsupportedZeroDurationActivity); instead the emitted schedule
constraint silently forces that activity to occupy exactly one full time slot
in every feasible assignment, miscounting it as a duration-one activity. -/
theorem onoff_zero_duration_occupies_one_slot :
    ∀ y, onoffFeasible 4 3 1 [1] [(0, 1), (1, 2), (2, 3)] [[0], [0], [1], [0]] []
        [[[0]], [[1]], [[1]], [[0]]] [] y →
      ∑ t ∈ Finset.range 3, y 1 0 t = 1 := by
  intro y hy
  unfold onoffFeasible at hy
  rw [cex_normalized_T_eval, cex_normalizeLoop_eval, cex_builderEst_eval] at hy
  obtain ⟨hbin, hsched, hfirst, hlast, hsame, hprec, hres, hlink, hzero⟩ := hy
  have h := hsched 1 (by omega) (by omega)
  norm_num [Finset.sum_range_succ, pEntry] at h ⊢
  linarith [h]

/-- Witness for C8: the concrete feasible on-off assignment onoffOptY gives
the zero-duration activity 1 total occupancy exactly 1. -/
theorem onoff_zero_duration_occupies_one_slot_witness :
    onoffFeasible 4 3 1 [1] [(0, 1), (1, 2), (2, 3)] [[0], [0], [1], [0]] []
        [[[0]], [[1]], [[1]], [[0]]] [] onoffOptY ∧
    ∑ t ∈ Finset.range 3, onoffOptY 1 0 t = 1 :=
  ⟨onoffOptY_feasible,
    onoff_zero_duration_occupies_one_slot onoffOptY onoffOptY_feasible⟩
